import Mathlib

/-!
Shallow embedding of the threat-aware route planner of the Samanvay backend
(`src/backend/main.py`, `create_convoy`, lines 234-315).  Coordinates are
latitude/longitude pairs of real numbers; threat regions are centers with a
radius in meters.  The planner samples 100 interior points of the straight
segment, collects the threat regions hit by the samples, and, when the
conflict list is non-empty, synthesizes a single perpendicular-offset detour
waypoint around the conflicting region closest to the route midpoint, with a
plain-containment safety recheck and an opposite-side fallback.
-/

open Classical

namespace Samanvay

/-- A latitude/longitude pair in decimal degrees. -/
@[ext]
structure Point where
  lat : ℝ
  lng : ℝ

/-- A circular threat region: center coordinates and radius in meters.
Mirrors the dicts `{'lat': ..., 'lng': ..., 'radius': ...}` built in
`create_convoy`. -/
@[ext]
structure Threat where
  lat : ℝ
  lng : ℝ
  radius : ℝ

/-- The center of a threat region as a `Point`. -/
def Threat.center (t : Threat) : Point := ⟨t.lat, t.lng⟩

/-- Planar Euclidean distance in degrees, `math.sqrt((p - q)**2 ...)` as used
throughout the route planner. -/
noncomputable def distDeg (p q : Point) : ℝ :=
  Real.sqrt ((p.lat - q.lat) ^ 2 + (p.lng - q.lng) ^ 2)

/-- The i-th sample point of the segment: `fraction = i / 101.0`,
`check = start + fraction * (end - start)` (main.py lines 240-243). -/
noncomputable def samplePoint (s e : Point) (i : ℕ) : Point :=
  ⟨s.lat + (i : ℝ) / 101 * (e.lat - s.lat),
   s.lng + (i : ℝ) / 101 * (e.lng - s.lng)⟩

/-- The sampler's margin test (main.py lines 247-253):
`distance <= (radius / 111320.0) * 1.1`. -/
def onRoute (p : Point) (t : Threat) : Prop :=
  distDeg p t.center ≤ t.radius / 111320 * 1.1

/-- The inner loop of the sampler over the threat list at one sample point
(main.py lines 245-257): on the first threat whose margin test passes, append
it to the accumulator unless already present, then `break` (the remaining
threats are not examined at this sample point); otherwise continue. -/
noncomputable def scanThreats (p : Point) : List Threat → List Threat → List Threat
  | [], acc => acc
  | t :: rest, acc =>
    if onRoute p t then (if t ∈ acc then acc else acc ++ [t])
    else scanThreats p rest acc

/-- The full sampling loop `for i in range(1, 101)` (main.py lines 240-257),
accumulating the conflict list `threats_on_route` starting from `[]`. -/
noncomputable def threatsOnRoute (s e : Point) (ts : List Threat) : List Threat :=
  (List.range 100).foldl (fun acc k => scanThreats (samplePoint s e (k + 1)) ts acc) []

/-- Route midpoint `((start + end) / 2)` (main.py lines 268-269). -/
noncomputable def midPoint (s e : Point) : Point :=
  ⟨(s.lat + e.lat) / 2, (s.lng + e.lng) / 2⟩

/-- Python's stable `min(threats_on_route, key=distance to midpoint)`
(main.py lines 271-272): fold keeping the current best, replacing it only on a
strictly smaller key. -/
noncomputable def closestThreat (m : Point) (c : Threat) (cs : List Threat) : Threat :=
  cs.foldl (fun best t => if distDeg m t.center < distDeg m best.center then t else best) c

/-- Magnitude of the perpendicular vector `(-rv_lng, rv_lat)`
(main.py lines 278-286). -/
noncomputable def perpMagnitude (s e : Point) : ℝ :=
  Real.sqrt ((-(e.lng - s.lng)) ^ 2 + (e.lat - s.lat) ^ 2)

/-- The offset direction: the perpendicular `(-rv_lng, rv_lat)` of the route
vector, normalized when its magnitude is positive and left unnormalized
otherwise (main.py lines 282-289). -/
noncomputable def routePerp (s e : Point) : ℝ × ℝ :=
  if perpMagnitude s e > 0 then
    (-(e.lng - s.lng) / perpMagnitude s e, (e.lat - s.lat) / perpMagnitude s e)
  else (-(e.lng - s.lng), e.lat - s.lat)

/-- Detour offset distance `(radius / 111320.0) * 2.0` in degrees
(main.py line 291). -/
noncomputable def detourDistance (t : Threat) : ℝ :=
  t.radius / 111320 * 2

/-- Primary candidate waypoint `threat_center + perp * detour_distance`
(main.py lines 293-296). -/
noncomputable def primaryWaypoint (s e : Point) (t : Threat) : Point :=
  ⟨t.lat + (routePerp s e).1 * detourDistance t,
   t.lng + (routePerp s e).2 * detourDistance t⟩

/-- Opposite-side candidate `threat_center - perp * detour_distance`
(main.py lines 308-311). -/
noncomputable def oppositeWaypoint (s e : Point) (t : Threat) : Point :=
  ⟨t.lat - (routePerp s e).1 * detourDistance t,
   t.lng - (routePerp s e).2 * detourDistance t⟩

/-- Plain containment used by the safety recheck (main.py lines 300-302):
`distance <= radius / 111320.0`, no 10% margin. -/
def insideThreat (p : Point) (t : Threat) : Prop :=
  distDeg p t.center ≤ t.radius / 111320

/-- The safety recheck over the full threat set (main.py lines 298-304):
`waypoint_safe` is true exactly when no region contains the candidate. -/
def waypointSafe (p : Point) (ts : List Threat) : Prop :=
  ∀ t ∈ ts, ¬ insideThreat p t

/-- The synthesized detour waypoint (main.py lines 293-312): the primary
candidate when the recheck passes, otherwise the opposite-side candidate,
accepted unconditionally. -/
noncomputable def detourWaypoint (s e : Point) (ts : List Threat) (sel : Threat) : Point :=
  if waypointSafe (primaryWaypoint s e sel) ts then primaryWaypoint s e sel
  else oppositeWaypoint s e sel

/-- The route builder (main.py lines 259-314): the direct 2-point route when
the conflict list is empty, otherwise `[start, waypoint, end]` with the
waypoint synthesized around the conflicting region closest to the midpoint. -/
noncomputable def planRoute (s e : Point) (ts : List Threat) : List Point :=
  match threatsOnRoute s e ts with
  | [] => [s, e]
  | c :: cs => [s, detourWaypoint s e ts (closestThreat (midPoint s e) c cs), e]

/-! Equation lemmas and small helpers. -/

lemma scanThreats_nil (p : Point) (acc : List Threat) : scanThreats p [] acc = acc := rfl

lemma scanThreats_cons (p : Point) (t : Threat) (rest acc : List Threat) :
    scanThreats p (t :: rest) acc =
      if onRoute p t then (if t ∈ acc then acc else acc ++ [t])
      else scanThreats p rest acc := rfl

lemma list_foldl_fixed {α β : Type} (f : α → β → α) (a : α) (l : List β)
    (h : ∀ b ∈ l, f a b = a) : l.foldl f a = a := by
  induction l with
  | nil => rfl
  | cons x xs ih =>
    rw [List.foldl_cons, h x (List.mem_cons_self x xs)]
    exact ih fun b hb => h b (List.mem_cons_of_mem _ hb)

lemma samplePoint_self (s : Point) (i : ℕ) : samplePoint s s i = s := by
  unfold samplePoint
  ext <;> simp

lemma scanThreats_no_hit (p : Point) (ts acc : List Threat)
    (h : ∀ t ∈ ts, ¬ onRoute p t) : scanThreats p ts acc = acc := by
  induction ts with
  | nil => rfl
  | cons t rest ih =>
    rw [scanThreats_cons, if_neg (h t (List.mem_cons_self t rest))]
    exact ih fun u hu => h u (List.mem_cons_of_mem _ hu)

lemma scanThreats_head_fixed (p : Point) (t : Threat) (rest : List Threat)
    (h : onRoute p t) : scanThreats p (t :: rest) [t] = [t] := by
  rw [scanThreats_cons, if_pos h, if_pos (List.mem_singleton_self t)]

/-- When `start = end` every sample point equals `start`; if the head threat's
margin test passes there, the conflict list is exactly `[t]`: at every sample
point the head triggers and the scan `break`s before reaching `rest`. -/
lemma threatsOnRoute_self_hit (s : Point) (t : Threat) (rest : List Threat)
    (h : onRoute s t) : threatsOnRoute s s (t :: rest) = [t] := by
  unfold threatsOnRoute
  rw [List.range_succ_eq_map, List.foldl_cons]
  have h1 : scanThreats (samplePoint s s (0 + 1)) (t :: rest) [] = [t] := by
    rw [samplePoint_self, scanThreats_cons, if_pos h]
    simp
  rw [h1]
  refine list_foldl_fixed _ _ _ fun k _ => ?_
  rw [samplePoint_self]
  exact scanThreats_head_fixed s t rest h

/-- For a one-element threat list whose threat is hit by the first sample
point, the conflict list is exactly that threat. -/
lemma threatsOnRoute_single (s e : Point) (t : Threat)
    (h : onRoute (samplePoint s e 1) t) : threatsOnRoute s e [t] = [t] := by
  unfold threatsOnRoute
  rw [List.range_succ_eq_map, List.foldl_cons]
  have h1 : scanThreats (samplePoint s e (0 + 1)) [t] [] = [t] := by
    rw [scanThreats_cons, if_pos h]
    simp
  rw [h1]
  refine list_foldl_fixed _ _ _ fun k _ => ?_
  by_cases hp : onRoute (samplePoint s e (k + 1)) t
  · exact scanThreats_head_fixed _ t [] hp
  · rw [scanThreats_cons, if_neg hp, scanThreats_nil]

lemma point_ne_lat_or_lng {s e : Point} (hne : s ≠ e) : s.lat ≠ e.lat ∨ s.lng ≠ e.lng := by
  by_contra hc
  push_neg at hc
  exact hne (Point.ext hc.1 hc.2)

lemma perpMagnitude_pos {s e : Point} (hne : s ≠ e) : 0 < perpMagnitude s e := by
  unfold perpMagnitude
  rw [Real.sqrt_pos]
  rcases point_ne_lat_or_lng hne with h | h
  · have hb : 0 < (e.lat - s.lat) ^ 2 :=
      pow_two_pos_of_ne_zero (sub_ne_zero.mpr (Ne.symm h))
    have ha : 0 ≤ (-(e.lng - s.lng)) ^ 2 := sq_nonneg _
    linarith
  · have hb : 0 < (-(e.lng - s.lng)) ^ 2 :=
      pow_two_pos_of_ne_zero (neg_ne_zero.mpr (sub_ne_zero.mpr (Ne.symm h)))
    have ha : 0 ≤ (e.lat - s.lat) ^ 2 := sq_nonneg _
    linarith

/-- When `start ≠ end`, the offset direction is normalized and has unit
Euclidean norm. -/
lemma routePerp_norm {s e : Point} (hne : s ≠ e) :
    (routePerp s e).1 ^ 2 + (routePerp s e).2 ^ 2 = 1 := by
  have hm : 0 < perpMagnitude s e := perpMagnitude_pos hne
  have hsq : perpMagnitude s e ^ 2 = (-(e.lng - s.lng)) ^ 2 + (e.lat - s.lat) ^ 2 := by
    unfold perpMagnitude
    exact Real.sq_sqrt (by positivity)
  unfold routePerp
  rw [if_pos hm]
  have hne0 : perpMagnitude s e ≠ 0 := ne_of_gt hm
  field_simp
  linarith [hsq]

lemma routePerp_self (s : Point) : routePerp s s = (0, 0) := by
  unfold routePerp perpMagnitude
  simp

lemma closestThreat_nil (m : Point) (c : Threat) : closestThreat m c [] = c := rfl

lemma closestThreat_cons (m : Point) (c t : Threat) (rest : List Threat) :
    closestThreat m c (t :: rest) =
      closestThreat m (if distDeg m t.center < distDeg m c.center then t else c) rest := by
  unfold closestThreat
  rw [List.foldl_cons]

/-- Characterization of the stable `min`: the selected threat occurs in the
list, its key is minimal, and every element strictly before it in the list has
a strictly larger key (so ties go to the earlier element). -/
lemma closestThreat_spec (m : Point) :
    ∀ (cs : List Threat) (c : Threat),
      ∃ pre post : List Threat,
        c :: cs = pre ++ closestThreat m c cs :: post ∧
        (∀ t ∈ c :: cs, distDeg m (closestThreat m c cs).center ≤ distDeg m t.center) ∧
        (∀ t ∈ pre, distDeg m (closestThreat m c cs).center < distDeg m t.center) := by
  intro cs
  induction cs with
  | nil =>
    intro c
    refine ⟨[], [], by rw [closestThreat_nil, List.nil_append], ?_, by simp⟩
    intro t ht
    rw [closestThreat_nil]
    rcases List.mem_singleton.mp ht with rfl
    exact le_refl _
  | cons t rest ih =>
    intro c
    rw [closestThreat_cons]
    by_cases hlt : distDeg m t.center < distDeg m c.center
    · rw [if_pos hlt]
      obtain ⟨pre, post, hdec, hmin, hpre⟩ := ih t
      refine ⟨c :: pre, post, ?_, ?_, ?_⟩
      · rw [List.cons_append, ← hdec]
      · intro u hu
        rcases List.mem_cons.mp hu with rfl | hu'
        · exact le_of_lt (lt_of_le_of_lt (hmin t (List.mem_cons_self t rest)) hlt)
        · exact hmin u hu'
      · intro u hu
        rcases List.mem_cons.mp hu with rfl | hu'
        · exact lt_of_le_of_lt (hmin t (List.mem_cons_self t rest)) hlt
        · exact hpre u hu'
    · rw [if_neg hlt]
      push_neg at hlt
      obtain ⟨pre, post, hdec, hmin, hpre⟩ := ih c
      cases pre with
      | nil =>
        rw [List.nil_append, List.cons.injEq] at hdec
        refine ⟨[], t :: rest, ?_, ?_, by simp⟩
        · rw [List.nil_append, ← hdec.1]
        · intro u hu
          rcases List.mem_cons.mp hu with rfl | hu'
          · exact hmin u (List.mem_cons_self u rest)
          rcases List.mem_cons.mp hu' with rfl | hu''
          · rw [← hdec.1]
            exact hlt
          · exact hmin u (List.mem_cons_of_mem _ hu'')
      | cons p0 pre' =>
        rw [List.cons_append, List.cons.injEq] at hdec
        obtain ⟨hp0, hrest⟩ := hdec
        have hcc : distDeg m (closestThreat m c rest).center < distDeg m c.center := by
          have hx := hpre p0 (List.mem_cons_self p0 pre')
          rwa [← hp0] at hx
        refine ⟨c :: t :: pre', post, ?_, ?_, ?_⟩
        · rw [List.cons_append, List.cons_append, ← hrest]
        · intro u hu
          rcases List.mem_cons.mp hu with rfl | hu'
          · exact hmin u (List.mem_cons_self u rest)
          rcases List.mem_cons.mp hu' with rfl | hu''
          · exact le_of_lt (lt_of_lt_of_le hcc hlt)
          · exact hmin u (List.mem_cons_of_mem _ hu'')
        · intro u hu
          rcases List.mem_cons.mp hu with rfl | hu'
          · exact hcc
          rcases List.mem_cons.mp hu' with rfl | hu''
          · exact lt_of_lt_of_le hcc hlt
          · exact hpre u (List.mem_cons_of_mem _ hu'')

lemma planRoute_clear (s e : Point) (ts : List Threat)
    (h : threatsOnRoute s e ts = []) : planRoute s e ts = [s, e] := by
  unfold planRoute
  rw [h]

lemma planRoute_conflict (s e : Point) (ts : List Threat) (c : Threat) (cs : List Threat)
    (h : threatsOnRoute s e ts = c :: cs) :
    planRoute s e ts = [s, detourWaypoint s e ts (closestThreat (midPoint s e) c cs), e] := by
  unfold planRoute
  rw [h]

/-! Concrete-scenario helpers used to discharge hypotheses in witnesses. -/

lemma onRoute_origin : onRoute ⟨0, 0⟩ ⟨0, 0, 111320⟩ := by
  unfold onRoute distDeg Threat.center
  norm_num [Real.sqrt_zero]

lemma ne_unit_route : (⟨0, 0⟩ : Point) ≠ ⟨0, 1⟩ := by
  intro h
  have h2 := congrArg Point.lng h
  norm_num at h2

lemma ne_long_route : (⟨0, 0⟩ : Point) ≠ ⟨0, 101⟩ := by
  intro h
  have h2 := congrArg Point.lng h
  norm_num at h2

lemma onRoute_long_route : onRoute (samplePoint ⟨0, 0⟩ ⟨0, 101⟩ 1) ⟨0, 1, 111320⟩ := by
  have hsp : samplePoint (⟨0, 0⟩ : Point) ⟨0, 101⟩ 1 = ⟨0, 1⟩ := by
    unfold samplePoint
    ext <;> norm_num
  rw [hsp]
  unfold onRoute distDeg Threat.center
  norm_num [Real.sqrt_zero]

/-! Claim theorems. -/

/-- Claim C1 (amended): at each sample point, the scan over the threat list
stops at the first region whose margin test the point passes: that region is
appended to the conflict list unless it is already present, and the regions
after it in the threat list are not examined at this sample point — so a
sample point lying inside two regions contributes only the earlier-listed
one; regions before it that fail the test are passed over, and later sample
points are still scanned. -/
theorem c1_sampler_first_hit (p : Point) (pre post acc : List Threat) (t : Threat)
    (hpre : ∀ u ∈ pre, ¬ onRoute p u) (ht : onRoute p t) :
    scanThreats p (pre ++ t :: post) acc = if t ∈ acc then acc else acc ++ [t] := by
  induction pre with
  | nil => rw [List.nil_append, scanThreats_cons, if_pos ht]
  | cons u pre' ih =>
    rw [List.cons_append, scanThreats_cons, if_neg (hpre u (List.mem_cons_self u pre'))]
    exact ih fun v hv => hpre v (List.mem_cons_of_mem _ hv)

/-- Witness for the amended C1 at a concrete sample point and threat list. -/
theorem c1_sampler_first_hit_witness :
    scanThreats ⟨0, 0⟩ [⟨0, 0, 111320⟩] [] = [⟨0, 0, 111320⟩] := by
  have h := c1_sampler_first_hit ⟨0, 0⟩ [] [] [] ⟨0, 0, 111320⟩ (by simp) onRoute_origin
  simpa using h

/-- Claim C1 counterexample: with `start = end = (0,0)`, every sample point is
`(0,0)` and lies inside both of two distinct threat regions, yet the conflict
list contains only the first region — the scan does not continue over the
remaining regions at a sample point once one region triggers, contradicting
the claim that such a sample point contributes both regions. -/
theorem c1_counterexample :
    onRoute ⟨0, 0⟩ ⟨0, 0, 111320⟩ ∧
    onRoute ⟨0, 0⟩ ⟨0, 0, 222640⟩ ∧
    samplePoint ⟨0, 0⟩ ⟨0, 0⟩ 1 = ⟨0, 0⟩ ∧
    threatsOnRoute ⟨0, 0⟩ ⟨0, 0⟩ [⟨0, 0, 111320⟩, ⟨0, 0, 222640⟩] = [⟨0, 0, 111320⟩] ∧
    (⟨0, 0, 222640⟩ : Threat) ∉
      threatsOnRoute ⟨0, 0⟩ ⟨0, 0⟩ [⟨0, 0, 111320⟩, ⟨0, 0, 222640⟩] := by
  have h1 : onRoute (⟨0, 0⟩ : Point) ⟨0, 0, 111320⟩ := onRoute_origin
  have h2 : onRoute (⟨0, 0⟩ : Point) ⟨0, 0, 222640⟩ := by
    unfold onRoute distDeg Threat.center
    norm_num [Real.sqrt_zero]
  have h4 : threatsOnRoute ⟨0, 0⟩ ⟨0, 0⟩ [⟨0, 0, 111320⟩, ⟨0, 0, 222640⟩] =
      [⟨0, 0, 111320⟩] :=
    threatsOnRoute_self_hit ⟨0, 0⟩ ⟨0, 0, 111320⟩ [⟨0, 0, 222640⟩] h1
  refine ⟨h1, h2, samplePoint_self _ 1, h4, ?_⟩
  rw [h4]
  intro hmem
  have h5 := congrArg Threat.radius (List.mem_singleton.mp hmem)
  norm_num at h5

/-- Claim C2: whenever the conflict list is non-empty, the safety recheck
tests the primary candidate against every region of the full threat set under
plain containment; if some region contains the candidate, the planner returns
the opposite-side candidate unconditionally, and if no region contains it,
the primary candidate itself is returned. -/
theorem c2_safety_recheck (s e : Point) (ts : List Threat) (c : Threat) (cs : List Threat)
    (h : threatsOnRoute s e ts = c :: cs) :
    ((∃ t ∈ ts, insideThreat (primaryWaypoint s e (closestThreat (midPoint s e) c cs)) t) →
      planRoute s e ts = [s, oppositeWaypoint s e (closestThreat (midPoint s e) c cs), e]) ∧
    ((∀ t ∈ ts, ¬ insideThreat (primaryWaypoint s e (closestThreat (midPoint s e) c cs)) t) →
      planRoute s e ts = [s, primaryWaypoint s e (closestThreat (midPoint s e) c cs), e]) := by
  have hp := planRoute_conflict s e ts c cs h
  constructor
  · rintro ⟨t, ht, hin⟩
    rw [hp]
    unfold detourWaypoint
    rw [if_neg fun hsafe => hsafe t ht hin]
  · intro hsafe
    rw [hp]
    unfold detourWaypoint
    rw [if_pos
      (show waypointSafe (primaryWaypoint s e (closestThreat (midPoint s e) c cs)) ts
        from hsafe)]

/-- Witness for C2: a degenerate scenario where the primary candidate falls
back inside the triggering region, so the opposite-side candidate is
returned. -/
theorem c2_safety_recheck_witness :
    planRoute ⟨0, 0⟩ ⟨0, 0⟩ [⟨0, 0, 111320⟩] =
      [⟨0, 0⟩,
       oppositeWaypoint ⟨0, 0⟩ ⟨0, 0⟩
         (closestThreat (midPoint ⟨0, 0⟩ ⟨0, 0⟩) ⟨0, 0, 111320⟩ []),
       ⟨0, 0⟩] := by
  apply (c2_safety_recheck ⟨0, 0⟩ ⟨0, 0⟩ [⟨0, 0, 111320⟩] ⟨0, 0, 111320⟩ []
    (threatsOnRoute_self_hit ⟨0, 0⟩ ⟨0, 0, 111320⟩ [] onRoute_origin)).1
  refine ⟨⟨0, 0, 111320⟩, List.mem_singleton_self _, ?_⟩
  have hpw : primaryWaypoint (⟨0, 0⟩ : Point) ⟨0, 0⟩
      (closestThreat (midPoint ⟨0, 0⟩ ⟨0, 0⟩) ⟨0, 0, 111320⟩ []) = ⟨0, 0⟩ := by
    rw [closestThreat_nil]
    unfold primaryWaypoint
    rw [routePerp_self]
    ext <;> simp
  rw [hpw]
  unfold insideThreat distDeg Threat.center
  norm_num [Real.sqrt_zero]

/-- Claim C6: when every threat region's margin test fails at all 100 interior
sample points, the planner returns the 2-point direct route; in particular it
does so for the empty threat list. -/
theorem c6_clear_route (s e : Point) (ts : List Threat)
    (h : ∀ t ∈ ts, ∀ i : ℕ, 1 ≤ i → i ≤ 100 →
      t.radius / 111320 * 1.1 < distDeg (samplePoint s e i) t.center) :
    planRoute s e ts = [s, e] ∧ planRoute s e [] = [s, e] := by
  constructor
  · apply planRoute_clear
    unfold threatsOnRoute
    refine list_foldl_fixed _ _ _ fun k hk => ?_
    apply scanThreats_no_hit
    intro t ht
    have hk' : k < 100 := List.mem_range.mp hk
    have hlt := h t ht (k + 1) (Nat.le_add_left 1 k) (by omega)
    exact not_le.mpr hlt
  · apply planRoute_clear
    unfold threatsOnRoute
    exact list_foldl_fixed _ _ _ fun k _ => scanThreats_nil _ _

/-- Witness for C6: a single region far from the (degenerate) route. -/
theorem c6_clear_route_witness :
    planRoute ⟨0, 0⟩ ⟨0, 0⟩ [⟨3, 4, 111320⟩] = [⟨0, 0⟩, ⟨0, 0⟩] ∧
    planRoute ⟨0, 0⟩ ⟨0, 0⟩ [] = [⟨0, 0⟩, ⟨0, 0⟩] := by
  apply c6_clear_route
  intro t ht i h1 h100
  rcases List.mem_singleton.mp ht with rfl
  rw [samplePoint_self]
  unfold distDeg Threat.center
  show (111320 : ℝ) / 111320 * 1.1 < Real.sqrt (((0 : ℝ) - 3) ^ 2 + ((0 : ℝ) - 4) ^ 2)
  rw [show ((0 : ℝ) - 3) ^ 2 + ((0 : ℝ) - 4) ^ 2 = 5 ^ 2 by norm_num,
    Real.sqrt_sq (by norm_num : (0 : ℝ) ≤ 5)]
  norm_num

/-- Claim C7: for `start = end` with a non-empty conflict list, the route
vector is zero, normalization is skipped, the offset direction degenerates to
`(0, 0)`, and both the primary and the opposite-side candidates — hence the
returned detour waypoint — coincide with the selected region's center. -/
theorem c7_degenerate_detour (s : Point) (ts : List Threat) (c : Threat) (cs : List Threat)
    (h : threatsOnRoute s s ts = c :: cs) :
    routePerp s s = (0, 0) ∧
    primaryWaypoint s s (closestThreat (midPoint s s) c cs) =
      (closestThreat (midPoint s s) c cs).center ∧
    oppositeWaypoint s s (closestThreat (midPoint s s) c cs) =
      (closestThreat (midPoint s s) c cs).center ∧
    planRoute s s ts = [s, (closestThreat (midPoint s s) c cs).center, s] := by
  have hrp := routePerp_self s
  have hpw : ∀ t : Threat, primaryWaypoint s s t = t.center := by
    intro t
    unfold primaryWaypoint Threat.center
    rw [hrp]
    ext <;> simp
  have how : ∀ t : Threat, oppositeWaypoint s s t = t.center := by
    intro t
    unfold oppositeWaypoint Threat.center
    rw [hrp]
    ext <;> simp
  refine ⟨hrp, hpw _, how _, ?_⟩
  rw [planRoute_conflict s s ts c cs h]
  unfold detourWaypoint
  by_cases hsf : waypointSafe (primaryWaypoint s s (closestThreat (midPoint s s) c cs)) ts
  · rw [if_pos hsf, hpw]
  · rw [if_neg hsf, how]

/-- Witness for C7: degenerate route inside one region. -/
theorem c7_degenerate_detour_witness :
    routePerp ⟨0, 0⟩ ⟨0, 0⟩ = (0, 0) ∧
    primaryWaypoint ⟨0, 0⟩ ⟨0, 0⟩
      (closestThreat (midPoint ⟨0, 0⟩ ⟨0, 0⟩) ⟨0, 0, 111320⟩ []) =
      (closestThreat (midPoint ⟨0, 0⟩ ⟨0, 0⟩) ⟨0, 0, 111320⟩ []).center ∧
    oppositeWaypoint ⟨0, 0⟩ ⟨0, 0⟩
      (closestThreat (midPoint ⟨0, 0⟩ ⟨0, 0⟩) ⟨0, 0, 111320⟩ []) =
      (closestThreat (midPoint ⟨0, 0⟩ ⟨0, 0⟩) ⟨0, 0, 111320⟩ []).center ∧
    planRoute ⟨0, 0⟩ ⟨0, 0⟩ [⟨0, 0, 111320⟩] =
      [⟨0, 0⟩, (closestThreat (midPoint ⟨0, 0⟩ ⟨0, 0⟩) ⟨0, 0, 111320⟩ []).center, ⟨0, 0⟩] :=
  c7_degenerate_detour ⟨0, 0⟩ [⟨0, 0, 111320⟩] ⟨0, 0, 111320⟩ []
    (threatsOnRoute_self_hit ⟨0, 0⟩ ⟨0, 0, 111320⟩ [] onRoute_origin)

/-- Claim C4: for every non-empty conflict list, the Detour Synthesizer bases
its waypoint on the conflicting region whose center is closest (Euclidean
distance in degree-space) to the route midpoint, with ties resolved in favor
of the region occurring earlier in the conflict list (stable `min`): the
selected region `closestThreat (midPoint s e) c cs` occurs in the conflict
list `c :: cs`, its distance to the midpoint is minimal, and every region
listed before it is strictly farther from the midpoint. -/
theorem c4_nearest_conflict_selection (s e : Point) (c : Threat) (cs : List Threat) :
    ∃ pre post : List Threat,
      c :: cs = pre ++ closestThreat (midPoint s e) c cs :: post ∧
      (∀ t ∈ c :: cs,
        distDeg (midPoint s e) (closestThreat (midPoint s e) c cs).center ≤
          distDeg (midPoint s e) t.center) ∧
      (∀ t ∈ pre,
        distDeg (midPoint s e) (closestThreat (midPoint s e) c cs).center <
          distDeg (midPoint s e) t.center) :=
  closestThreat_spec (midPoint s e) cs c

/-- Claim C5: whenever the Route Sampler's conflict list is non-empty, `plan`
returns a route of exactly 3 points, ordered `[start, detour_waypoint, end]`,
with the detour strictly between start and end in sequence order. -/
theorem c5_detour_route_shape (s e : Point) (ts : List Threat) (c : Threat) (cs : List Threat)
    (h : threatsOnRoute s e ts = c :: cs) :
    planRoute s e ts = [s, detourWaypoint s e ts (closestThreat (midPoint s e) c cs), e] ∧
    (planRoute s e ts).length = 3 := by
  have hp := planRoute_conflict s e ts c cs h
  exact ⟨hp, by rw [hp]; rfl⟩

/-- Witness for C5: degenerate route inside one region gives a 3-point route. -/
theorem c5_detour_route_shape_witness :
    planRoute ⟨0, 0⟩ ⟨0, 0⟩ [⟨0, 0, 111320⟩] =
      [⟨0, 0⟩,
       detourWaypoint ⟨0, 0⟩ ⟨0, 0⟩ [⟨0, 0, 111320⟩]
         (closestThreat (midPoint ⟨0, 0⟩ ⟨0, 0⟩) ⟨0, 0, 111320⟩ []),
       ⟨0, 0⟩] ∧
    (planRoute ⟨0, 0⟩ ⟨0, 0⟩ [⟨0, 0, 111320⟩]).length = 3 :=
  c5_detour_route_shape ⟨0, 0⟩ ⟨0, 0⟩ [⟨0, 0, 111320⟩] ⟨0, 0, 111320⟩ []
    (threatsOnRoute_self_hit ⟨0, 0⟩ ⟨0, 0, 111320⟩ [] onRoute_origin)

/-- Claim C8: for every input the planning computation is total and produces
a route of 2 or 3 points: either the direct route `[start, end]` or a route
`[start, waypoint, end]` with a single detour waypoint. -/
theorem c8_total_route_shape (s e : Point) (ts : List Threat) :
    (planRoute s e ts = [s, e] ∨ ∃ w : Point, planRoute s e ts = [s, w, e]) ∧
    ((planRoute s e ts).length = 2 ∨ (planRoute s e ts).length = 3) := by
  rcases hc : threatsOnRoute s e ts with _ | ⟨c, cs⟩
  · have hp := planRoute_clear s e ts hc
    exact ⟨Or.inl hp, Or.inl (by rw [hp]; rfl)⟩
  · have hp := planRoute_conflict s e ts c cs hc
    exact ⟨Or.inr ⟨_, hp⟩, Or.inr (by rw [hp]; rfl)⟩

/-- Claim C9: the planner is deterministic — the produced route is a pure
function of the start point, the end point, and the threat snapshot: two
invocations with equal inputs produce equal routes. -/
theorem c9_deterministic (s₁ e₁ : Point) (ts₁ : List Threat) (s₂ e₂ : Point) (ts₂ : List Threat)
    (hs : s₁ = s₂) (he : e₁ = e₂) (ht : ts₁ = ts₂) :
    planRoute s₁ e₁ ts₁ = planRoute s₂ e₂ ts₂ := by
  rw [hs, he, ht]

/-- The primary candidate as the spec's words state it: the selected region's
center plus the unit-normalized perpendicular `(-d_lng, d_lat)` of the route
vector `end - start`, scaled by the offset distance
`2.0 × (region.radius_meters / 111320.0)` degrees.  Stated independently of
the source's guarded normalization, for comparison with `primaryWaypoint`. -/
noncomputable def specPrimaryCandidate (s e : Point) (t : Threat) : Point :=
  ⟨t.lat + -(e.lng - s.lng) / Real.sqrt ((-(e.lng - s.lng)) ^ 2 + (e.lat - s.lat) ^ 2) *
      (2 * (t.radius / 111320)),
   t.lng + (e.lat - s.lat) / Real.sqrt ((-(e.lng - s.lng)) ^ 2 + (e.lat - s.lat) ^ 2) *
      (2 * (t.radius / 111320))⟩

/-- Claim C3: for a non-empty conflict list and `start ≠ end`, the primary
candidate waypoint equals the selected region's center plus the
unit-normalized perpendicular `(-d_lng, d_lat)` of the route vector, scaled
by the offset distance `2.0 × (radius_meters / 111320.0)` degrees. -/
theorem c3_primary_candidate (s e : Point) (ts : List Threat) (c : Threat) (cs : List Threat)
    (h : threatsOnRoute s e ts = c :: cs) (hne : s ≠ e) :
    primaryWaypoint s e (closestThreat (midPoint s e) c cs) =
      specPrimaryCandidate s e (closestThreat (midPoint s e) c cs) := by
  have hm : 0 < perpMagnitude s e := perpMagnitude_pos hne
  unfold primaryWaypoint specPrimaryCandidate routePerp detourDistance
  rw [if_pos hm]
  unfold perpMagnitude
  ext <;> · simp only; ring

/-- Witness for C3 at a concrete conflicted route with distinct endpoints. -/
theorem c3_primary_candidate_witness :
    primaryWaypoint ⟨0, 0⟩ ⟨0, 101⟩
        (closestThreat (midPoint ⟨0, 0⟩ ⟨0, 101⟩) ⟨0, 1, 111320⟩ []) =
      specPrimaryCandidate ⟨0, 0⟩ ⟨0, 101⟩
        (closestThreat (midPoint ⟨0, 0⟩ ⟨0, 101⟩) ⟨0, 1, 111320⟩ []) :=
  c3_primary_candidate ⟨0, 0⟩ ⟨0, 101⟩ [⟨0, 1, 111320⟩] ⟨0, 1, 111320⟩ []
    (threatsOnRoute_single ⟨0, 0⟩ ⟨0, 101⟩ ⟨0, 1, 111320⟩ onRoute_long_route) ne_long_route

/-- Claim C10: when `start ≠ end`, both the primary and the opposite-side
candidates lie at Euclidean degree distance exactly `2 × (radius / 111320)`
from the region's center (negation preserves the magnitude), so for a region
of positive radius either candidate is strictly outside that region under the
plain-containment test, even when the fallback is accepted unchecked. -/
theorem c10_detour_clearance (s e : Point) (t : Threat) (hne : s ≠ e) (hr : 0 ≤ t.radius) :
    distDeg (primaryWaypoint s e t) t.center = 2 * (t.radius / 111320) ∧
    distDeg (oppositeWaypoint s e t) t.center = 2 * (t.radius / 111320) ∧
    (0 < t.radius →
      ¬ insideThreat (primaryWaypoint s e t) t ∧
      ¬ insideThreat (oppositeWaypoint s e t) t) := by
  have hn := routePerp_norm hne
  have hd0 : 0 ≤ detourDistance t := by
    unfold detourDistance
    positivity
  have hsq : ∀ x y : ℝ, x ^ 2 + y ^ 2 = detourDistance t ^ 2 →
      Real.sqrt (x ^ 2 + y ^ 2) = detourDistance t := fun x y hxy => by
    rw [hxy, Real.sqrt_sq hd0]
  have hp : distDeg (primaryWaypoint s e t) t.center = detourDistance t := by
    unfold distDeg primaryWaypoint Threat.center
    simp only
    exact hsq _ _ (by linear_combination detourDistance t ^ 2 * hn)
  have ho : distDeg (oppositeWaypoint s e t) t.center = detourDistance t := by
    unfold distDeg oppositeWaypoint Threat.center
    simp only
    exact hsq _ _ (by linear_combination detourDistance t ^ 2 * hn)
  have hdd : detourDistance t = 2 * (t.radius / 111320) := by
    unfold detourDistance
    ring
  refine ⟨hp.trans hdd, ho.trans hdd, fun hr0 => ⟨?_, ?_⟩⟩
  · unfold insideThreat
    rw [hp]
    unfold detourDistance
    intro hle
    have hpos : 0 < t.radius / 111320 := by positivity
    linarith
  · unfold insideThreat
    rw [ho]
    unfold detourDistance
    intro hle
    have hpos : 0 < t.radius / 111320 := by positivity
    linarith

/-- Witness for C10 at a concrete region and route. -/
theorem c10_detour_clearance_witness :
    distDeg (primaryWaypoint ⟨0, 0⟩ ⟨0, 1⟩ ⟨5, 5, 1000⟩) (Threat.center ⟨5, 5, 1000⟩) =
      2 * ((1000 : ℝ) / 111320) ∧
    ¬ insideThreat (primaryWaypoint ⟨0, 0⟩ ⟨0, 1⟩ ⟨5, 5, 1000⟩) ⟨5, 5, 1000⟩ ∧
    ¬ insideThreat (oppositeWaypoint ⟨0, 0⟩ ⟨0, 1⟩ ⟨5, 5, 1000⟩) ⟨5, 5, 1000⟩ := by
  have h := c10_detour_clearance ⟨0, 0⟩ ⟨0, 1⟩ ⟨5, 5, 1000⟩ ne_unit_route (by norm_num)
  have h2 := h.2.2 (by norm_num)
  exact ⟨h.1, h2.1, h2.2⟩

/-- Witness for C9 at concrete inputs. -/
theorem c9_deterministic_witness :
    planRoute ⟨0, 0⟩ ⟨0, 1⟩ [⟨3, 4, 500⟩] = planRoute ⟨0, 0⟩ ⟨0, 1⟩ [⟨3, 4, 500⟩] :=
  c9_deterministic ⟨0, 0⟩ ⟨0, 1⟩ [⟨3, 4, 500⟩] ⟨0, 0⟩ ⟨0, 1⟩ [⟨3, 4, 500⟩] rfl rfl rfl
